import Mathlib

/-!
Verification development for `chordrec/augmenters.py`.

Numeric arrays are embedded as lists of rationals (`List ℚ` for a 1-D row,
`List (List ℚ)` for a 2-D sample or a batch of target rows, and
`List (List (List ℚ))` for a batch of 2-D spectrogram samples).  Randomness
is made explicit: the drawn values and the set of indices chosen by
`random.sample` are parameters, and admissibility predicates describe
exactly which shift vectors the samplers can produce.
-/

set_option maxRecDepth 20000

namespace Chordrec

/-- `np.roll(v, s)` for a 1-D array `v`: element `j` of the result is
`v[(j - s) mod n]`; equivalently a left rotation by `(-s) mod n`.
(`Int.emod` is non-negative for a positive modulus, matching numpy.) -/
def np_roll {α : Type} (s : ℤ) (v : List α) : List α :=
  v.rotate ((-s) % (v.length : ℤ)).toNat

theorem np_roll_zero {α : Type} (v : List α) : np_roll 0 v = v := by
  simp [np_roll]

theorem np_roll_length {α : Type} (s : ℤ) (v : List α) :
    (np_roll s v).length = v.length := by
  simp [np_roll, List.length_rotate]

theorem np_roll_perm {α : Type} (s : ℤ) (v : List α) :
    (np_roll s v).Perm v := List.rotate_perm v _

/-- Rotation amounts that agree modulo the length give the same rotation. -/
theorem rotate_eq_of_int_emod_eq {α : Type} (v : List α) (a b : ℤ)
    (ha : 0 ≤ a) (hb : 0 ≤ b) (h : a % (v.length : ℤ) = b % (v.length : ℤ)) :
    v.rotate a.toNat = v.rotate b.toNat := by
  rcases v.eq_nil_or_concat with rfl | hne
  · simp [List.rotate]
  · have hlen : 0 < v.length := by
      rcases hne with ⟨l, x, rfl⟩; simp
    rw [← List.rotate_mod v a.toNat, ← List.rotate_mod v b.toNat]
    congr 1
    have hcast : ((a.toNat % v.length : ℕ) : ℤ) = ((b.toNat % v.length : ℕ) : ℤ) := by
      push_cast
      rw [Int.toNat_of_nonneg ha, Int.toNat_of_nonneg hb, h]
    exact_mod_cast hcast

theorem np_roll_np_roll {α : Type} (s₁ s₂ : ℤ) (v : List α) :
    np_roll s₂ (np_roll s₁ v) = np_roll (s₁ + s₂) v := by
  rcases v.eq_nil_or_concat with rfl | hne
  · simp [np_roll, List.rotate]
  · have hlen : 0 < v.length := by
      rcases hne with ⟨l, x, rfl⟩; simp
    have hlenz : (0 : ℤ) < (v.length : ℤ) := by exact_mod_cast hlen
    have hne0 : (v.length : ℤ) ≠ 0 := ne_of_gt hlenz
    unfold np_roll
    rw [List.length_rotate, List.rotate_rotate]
    have h1 : (0 : ℤ) ≤ (-s₁) % (v.length : ℤ) := Int.emod_nonneg _ hne0
    have h2 : (0 : ℤ) ≤ (-s₂) % (v.length : ℤ) := Int.emod_nonneg _ hne0
    have h3 : (0 : ℤ) ≤ (-(s₁ + s₂)) % (v.length : ℤ) := Int.emod_nonneg _ hne0
    rw [← List.rotate_mod v
        (((-s₁) % (v.length : ℤ)).toNat + ((-s₂) % (v.length : ℤ)).toNat),
      ← List.rotate_mod v ((-(s₁ + s₂)) % (v.length : ℤ)).toNat]
    congr 1
    have hcast : (((((-s₁) % (v.length : ℤ)).toNat
          + ((-s₂) % (v.length : ℤ)).toNat) % v.length : ℕ) : ℤ)
        = (((((-(s₁ + s₂)) % (v.length : ℤ)).toNat) % v.length : ℕ) : ℤ) := by
      push_cast
      rw [Int.toNat_of_nonneg h1, Int.toNat_of_nonneg h2, Int.toNat_of_nonneg h3]
      rw [Int.emod_emod_of_dvd _ dvd_rfl, ← Int.add_emod]
      congr 1
      ring
    exact_mod_cast hcast

/-- `np.roll` only depends on the shift modulo the array length. -/
theorem np_roll_emod {α : Type} (s : ℤ) (v : List α) :
    np_roll (s % (v.length : ℤ)) v = np_roll s v := by
  rcases v.eq_nil_or_concat with rfl | hne
  · simp [np_roll, List.rotate]
  · have hlen : 0 < v.length := by
      rcases hne with ⟨l, x, rfl⟩; simp
    have hlenz : (0 : ℤ) < (v.length : ℤ) := by exact_mod_cast hlen
    have hne0 : (v.length : ℤ) ≠ 0 := ne_of_gt hlenz
    unfold np_roll
    exact rotate_eq_of_int_emod_eq v _ _
      (Int.emod_nonneg _ hne0) (Int.emod_nonneg _ hne0)
      (by
        rw [Int.emod_emod_of_dvd _ dvd_rfl, Int.emod_emod_of_dvd _ dvd_rfl]
        rw [Int.neg_emod, Int.neg_emod]
        rw [Int.sub_emod, Int.emod_emod_of_dvd _ dvd_rfl, ← Int.sub_emod])

/-- The maximum of a 1-D array, as `np.max`/the reduction underlying
`np.argmax` computes it (`0` for the empty list, which numpy rejects). -/
def listMax : List ℚ → ℚ
  | [] => 0
  | [x] => x
  | x :: y :: t => max x (listMax (y :: t))

/-- `np.argmax(v)`: the index of the first occurrence of the maximum value. -/
def argmax (v : List ℚ) : ℕ := v.indexOf (listMax v)

theorem listMax_cons (x : ℚ) (l : List ℚ) (h : l ≠ []) :
    listMax (x :: l) = max x (listMax l) := by
  cases l with
  | nil => exact absurd rfl h
  | cons y t => rfl

theorem listMax_mem (l : List ℚ) (h : l ≠ []) : listMax l ∈ l := by
  induction l with
  | nil => exact absurd rfl h
  | cons x t ih =>
    cases t with
    | nil => simp [listMax]
    | cons y u =>
      rw [listMax_cons x (y :: u) (by simp)]
      rcases max_choice x (listMax (y :: u)) with hm | hm
      · rw [hm]; exact List.mem_cons_self _ _
      · rw [hm]; exact List.mem_cons_of_mem _ (ih (by simp))

theorem argmax_lt_length (v : List ℚ) (h : v ≠ []) : argmax v < v.length :=
  List.indexOf_lt_length.mpr (listMax_mem v h)

/-- Row `c` of a one-hot encoding of width `n`. -/
def oneHotRow (c n : ℕ) : List ℚ :=
  (List.range n).map (fun j => if j = c then 1 else 0)

/-- Modelled from the spec: `one_hot` is imported from `targets.py`, which is
not among the sources.  The spec (§4.3 step 7) says "Re-encode as one-hot of
width C": row `i` of the result has a `1` at index `classes[i]` and `0`
elsewhere. -/
def one_hot (classes : List ℕ) (width : ℕ) : List (List ℚ) :=
  classes.map (fun c => oneHotRow c width)

theorem oneHotRow_length (c n : ℕ) : (oneHotRow c n).length = n := by
  simp [oneHotRow]

theorem oneHotRow_eq_replicate (c n : ℕ) (h : c < n) :
    oneHotRow c n
      = List.replicate c 0 ++ (1 : ℚ) :: List.replicate (n - c - 1) 0 := by
  induction c generalizing n with
  | zero =>
    cases n with
    | zero => omega
    | succ m =>
      rw [oneHotRow, List.range_succ_eq_map]
      simp [List.map_map, Function.comp_def, List.map_const]
  | succ c ih =>
    cases n with
    | zero => omega
    | succ m =>
      have hcm : c < m := by omega
      rw [oneHotRow, List.range_succ_eq_map]
      have : (List.range m).map ((fun j => if j = c + 1 then (1 : ℚ) else 0) ∘ Nat.succ)
          = (List.range m).map (fun j => if j = c then (1 : ℚ) else 0) := by
        apply List.map_congr_left
        intro a _
        simp [Function.comp_def, Nat.succ_eq_add_one]
      simp only [List.map_cons, List.map_map]
      rw [this]
      have ihm := ih m hcm
      rw [oneHotRow] at ihm
      rw [ihm]
      simp [List.replicate_succ]

theorem listMax_one_cons_replicate (k : ℕ) :
    listMax ((1 : ℚ) :: List.replicate k 0) = 1 := by
  induction k with
  | zero => rfl
  | succ m _ =>
    rw [List.replicate_succ, listMax_cons _ _ (by simp)]
    have h0 : listMax ((0 : ℚ) :: List.replicate m 0) ≤ 1 := by
      have hm : listMax ((0 : ℚ) :: List.replicate m 0) ∈
          (0 : ℚ) :: List.replicate m 0 := listMax_mem _ (by simp)
      rcases List.mem_cons.mp hm with hh | hh
      · rw [hh]; norm_num
      · rw [List.eq_of_mem_replicate hh]; norm_num
    exact max_eq_left h0

theorem listMax_oneHot (c k : ℕ) :
    listMax (List.replicate c (0 : ℚ) ++ 1 :: List.replicate k 0) = 1 := by
  induction c with
  | zero => simpa using listMax_one_cons_replicate k
  | succ m ih =>
    rw [List.replicate_succ, List.cons_append,
      listMax_cons _ _ (by simp), ih]
    norm_num

theorem indexOf_oneHot (c k : ℕ) :
    List.indexOf (1 : ℚ) (List.replicate c 0 ++ 1 :: List.replicate k 0) = c := by
  have hnot : (1 : ℚ) ∉ List.replicate c 0 := by
    intro h
    have := List.eq_of_mem_replicate h
    norm_num at this
  rw [List.indexOf_append_of_not_mem hnot, List.indexOf_cons_self]
  simp [List.length_replicate]

/-- `np.argmax` of a genuine one-hot row recovers the encoded class. -/
theorem argmax_oneHotRow (c n : ℕ) (h : c < n) : argmax (oneHotRow c n) = c := by
  rw [argmax, oneHotRow_eq_replicate c n h, listMax_oneHot, indexOf_oneHot]

/-- `targets.shape[-1]` for a rectangular batch embedded as a list of rows. -/
def lastDim (targets : List (List ℚ)) : ℕ := (targets.headD []).length

/-- `SemitoneShift._adapt_targets_chords_maj_min(targets, shifts)`.
`chord_classes = targets.argmax(-1)`; `no_chord_class = targets.shape[-1] - 1`;
`no_chords = (chord_classes == no_chord_class)`;
`chord_roots = chord_classes % 12`; `chord_majmin = chord_classes / 12`
(Python 2 integer division on the integer `argmax` result);
`new_chord_roots = (chord_roots + shifts) % 12` (numpy `%` is non-negative);
`new_chord_classes = new_chord_roots + chord_majmin * 12`;
`new_chord_classes[no_chords] = no_chord_class`;
`one_hot(new_chord_classes, no_chord_class + 1)`. -/
def adapt_targets_chords_maj_min (targets : List (List ℚ)) (shifts : List ℤ) :
    List (List ℚ) :=
  let chord_classes := targets.map argmax
  let no_chord_class := lastDim targets - 1
  let no_chords := chord_classes.map (fun c => c == no_chord_class)
  let chord_roots := chord_classes.map (· % 12)
  let chord_majmin := chord_classes.map (· / 12)
  let new_chord_roots :=
    List.zipWith (fun r s => (((r : ℕ) : ℤ) + s) % 12 |>.toNat) chord_roots shifts
  let new_chord_classes0 :=
    List.zipWith (fun nr q => nr + q * 12) new_chord_roots chord_majmin
  let new_chord_classes :=
    List.zipWith (fun b c0 => if b then no_chord_class else c0)
      no_chords new_chord_classes0
  one_hot new_chord_classes (no_chord_class + 1)

/-- The per-sample class map the remapper implements: the sentinel class
`C - 1` is fixed, any other class `c` goes to
`((c mod 12 + s) mod 12) + (c div 12) * 12`. -/
def newClassFn (C c : ℕ) (s : ℤ) : ℕ :=
  if c = C - 1 then C - 1
  else ((((c % 12 : ℕ) : ℤ) + s) % 12).toNat + (c / 12) * 12

theorem zipWith_chain_eq (D : ℕ) (classes : List ℕ) (shifts : List ℤ) :
    List.zipWith (fun b c0 => if b then D else c0)
      (classes.map (fun c => c == D))
      (List.zipWith (fun nr q => nr + q * 12)
        (List.zipWith (fun r s => (((r : ℕ) : ℤ) + s) % 12 |>.toNat)
          (classes.map (· % 12)) shifts)
        (classes.map (· / 12)))
    = List.zipWith (fun c s => newClassFn (D + 1) c s) classes shifts := by
  induction classes generalizing shifts with
  | nil => simp
  | cons c t ih =>
    cases shifts with
    | nil => simp
    | cons s st =>
      simp only [List.map_cons, List.zipWith_cons_cons, ih]
      congr 1
      by_cases hc : c = D
      · simp [newClassFn, hc]
      · simp [newClassFn, hc]

/-- The remapper, collapsed: it is `one_hot` of the pointwise class map applied
to the row-wise argmaxes, with the sentinel taken from the row width. -/
theorem adapt_chords_eq (targets : List (List ℚ)) (shifts : List ℤ) :
    adapt_targets_chords_maj_min targets shifts
      = one_hot
          (List.zipWith (fun c s => newClassFn (lastDim targets - 1 + 1) c s)
            (targets.map argmax) shifts)
          (lastDim targets - 1 + 1) := by
  simp only [adapt_targets_chords_maj_min]
  rw [zipWith_chain_eq]

/-- The remapper on a batch of genuine one-hot rows of width `C`. -/
theorem adapt_chords_spec (C : ℕ) (hC : 1 ≤ C) (classes : List ℕ)
    (shifts : List ℤ) (hcls : ∀ c ∈ classes, c < C) :
    adapt_targets_chords_maj_min (classes.map (fun c => oneHotRow c C)) shifts
      = one_hot (List.zipWith (fun c s => newClassFn C c s) classes shifts) C := by
  rw [adapt_chords_eq]
  have hargmax : (classes.map (fun c => oneHotRow c C)).map argmax = classes := by
    rw [List.map_map]
    have : ∀ c ∈ classes, (argmax ∘ fun c => oneHotRow c C) c = id c := by
      intro c hc
      simp [Function.comp_def, argmax_oneHotRow c C (hcls c hc)]
    rw [List.map_congr_left this, List.map_id]
  rw [hargmax]
  cases classes with
  | nil => simp [one_hot]
  | cons c t =>
    have hdim : lastDim ((c :: t).map (fun c => oneHotRow c C)) = C := by
      simp [lastDim, oneHotRow_length]
    rw [hdim]
    have : C - 1 + 1 = C := by omega
    rw [this]

/-- `SemitoneShift._adapt_targets_chroma(targets, shifts)`: row `i` of the
result is `np.roll(targets[i], shifts[i], axis=-1)`. -/
def adapt_targets_chroma (targets : List (List ℚ)) (shifts : List ℤ) :
    List (List ℚ) :=
  List.zipWith (fun t s => np_roll s t) targets shifts

/-- The data loop of `SemitoneShift.__call__`: sample `i` becomes
`np.roll(data[i], shifts[i] * bins_per_semitone, axis=-1)` — a circular shift
of each row of the 2-D sample, i.e. along its LAST axis. -/
def semitone_shift_data (bins_per_semitone : ℤ) (shifts : List ℤ)
    (data : List (List (List ℚ))) : List (List (List ℚ)) :=
  List.zipWith (fun x s => x.map (np_roll (s * bins_per_semitone))) data shifts

/-- Written from the spec words for §4.2/C5 only, for comparison with
`semitone_shift_data`: "a circular shift of `s * bins_per_semitone` bins along
the frequency axis (the first axis)" of each sample. -/
def spec_shift_data_first_axis (bins_per_semitone : ℤ) (shifts : List ℤ)
    (data : List (List (List ℚ))) : List (List (List ℚ)) :=
  List.zipWith (fun x s => np_roll (s * bins_per_semitone) x) data shifts

/-- The two target-adaptation strategies `SemitoneShift.__init__` can bind to
`self.adapt_targets`. -/
inductive AdaptTargets : Type
  | chords_maj_min : AdaptTargets
  | chroma : AdaptTargets
deriving DecidableEq

def runAdapt : AdaptTargets → List (List ℚ) → List ℤ → List (List ℚ)
  | .chords_maj_min, t, s => adapt_targets_chords_maj_min t s
  | .chroma, t, s => adapt_targets_chroma t s

structure SemitoneShift : Type where
  p : ℚ
  max_shift : ℕ
  bins_per_semitone : ℕ
  adapt_targets : Option AdaptTargets
deriving DecidableEq

/-- `SemitoneShift.__init__`: stores the parameters and binds
`self.adapt_targets` for the two recognised strings.  There is no `else`
branch and no `raise`, so construction always succeeds; for any other
`target_type` the attribute is simply never set.  The `Except` result mirrors
Python exception behaviour (the body cannot raise, so it is always `ok`). -/
def SemitoneShift.init (p : ℚ) (max_shift bins_per_semitone : ℕ)
    (target_type : String) : Except String SemitoneShift :=
  Except.ok
    { p := p, max_shift := max_shift, bins_per_semitone := bins_per_semitone,
      adapt_targets :=
        if target_type = "chords_maj_min" then some AdaptTargets.chords_maj_min
        else if target_type = "chroma" then some AdaptTargets.chroma
        else none }

/-- One batch step of `SemitoneShift.__call__`, with the sampled shifts made
explicit.  When `adapt_targets` was never bound, the call
`self.adapt_targets(targets, shifts)` raises `AttributeError`. -/
def SemitoneShift.processBatch (a : SemitoneShift) (shifts : List ℤ)
    (data : List (List (List ℚ))) (targets : List (List ℚ)) :
    Except String (List (List (List ℚ)) × List (List ℚ)) :=
  match a.adapt_targets with
  | none => Except.error "AttributeError: adapt_targets"
  | some f =>
      Except.ok (semitone_shift_data a.bins_per_semitone shifts data,
        runAdapt f targets shifts)

/-- First-axis translation with zero fill (non-circular), used to model
integral-displacement `scipy.ndimage.shift`. -/
def translateZero (k : ℤ) (x : List (List ℚ)) : List (List ℚ) :=
  (List.range x.length).map (fun (i : ℕ) =>
    let j : ℤ := (i : ℤ) - k
    if h : 0 ≤ j ∧ j.toNat < x.length then x.get ⟨j.toNat, h.2⟩
    else (x.getD i []).map (fun _ => 0))

/-- Modelled from the spec: `scipy.ndimage.shift(sample, (d, 0))` is external
library code (§4.2 "a continuous (interpolated, non-circular) shift along the
frequency axis only, time axis untouched ... boundary attenuation rather than
wrap-around").  A displacement of `0` returns the sample unchanged; an
integral displacement is an exact translation with zero fill.  Non-integral
displacements interpolate with splines, which this embedding does not model;
they are mapped to an all-zero sample so that no identity-like property can
hold of them by accident.  No claim exercises a non-zero displacement. -/
def ndimage_shift (d : ℚ) (x : List (List ℚ)) : List (List ℚ) :=
  if d = 0 then x
  else if d.den = 1 then translateZero d.num x
  else x.map (fun row => row.map (fun _ => 0))

structure Detuning : Type where
  p : ℚ
  max_shift : ℚ
  bins_per_semitone : ℕ
deriving DecidableEq

/-- `Detuning.__init__`: raises `ValueError` when `max_shift >= 0.5`,
otherwise stores the parameters. -/
def Detuning.init (p max_shift : ℚ) (bins_per_semitone : ℕ) :
    Except String Detuning :=
  if max_shift ≥ 1/2 then
    Except.error "Detuning only works up to half a semitone!"
  else
    Except.ok { p := p, max_shift := max_shift,
                bins_per_semitone := bins_per_semitone }

/-- One batch step of `Detuning.__call__` with the sampled shifts explicit:
sample `i` becomes `shift(data[i], (shifts[i] * bins_per_semitone, 0))` and
the targets pass through unchanged. -/
def Detuning.processBatch (d : Detuning) (shifts : List ℚ)
    (data : List (List (List ℚ))) (targets : List (List ℚ)) :
    List (List (List ℚ)) × List (List ℚ) :=
  (List.zipWith (fun x s => ndimage_shift (s * (d.bins_per_semitone : ℚ)) x)
    data shifts, targets)

/-- `shifts[no_shift] = 0`: zero the entries whose index lies in the set
chosen by `random.sample`. -/
def zeroOut {α : Type} [Zero α] (drawn : List α) (S : Finset ℕ) : List α :=
  List.zipWith (fun i v => if i ∈ S then 0 else v)
    (List.range drawn.length) drawn

/-- `int(batch_size * (1 - self.p))`: the number of samples whose shift is
forced to zero.  Python `int()` truncates toward zero, which agrees with the
floor for the non-negative values that arise when `p ≤ 1`. -/
def num_no_shift (N : ℕ) (p : ℚ) : ℕ := (Int.floor ((N : ℚ) * (1 - p))).toNat

/-- The shift vectors one batch step of `SemitoneShift.__call__` can sample:
`np.random.randint(-max_shift, max_shift + 1, batch_size)` draws integers in
`[-max_shift, max_shift]`, then `random.sample(range(batch_size), int(batch_size * (1 - p)))`
chooses that many distinct indices whose shifts are zeroed. -/
def AdmissibleShiftsZ (N : ℕ) (p : ℚ) (max_shift : ℕ) (shifts : List ℤ) : Prop :=
  ∃ (drawn : List ℤ) (S : Finset ℕ),
    drawn.length = N ∧
    (∀ v ∈ drawn, -(max_shift : ℤ) ≤ v ∧ v ≤ (max_shift : ℤ)) ∧
    S ⊆ Finset.range N ∧ S.card = num_no_shift N p ∧
    shifts = zeroOut drawn S

/-- The shift vectors one batch step of `Detuning.__call__` can sample:
`np.random.rand(batch_size) * 2 * max_shift - max_shift` with
`rand ∈ [0, 1)`, then the same zeroing of `int(batch_size * (1 - p))`
sampled indices. -/
def AdmissibleShiftsQ (N : ℕ) (p : ℚ) (max_shift : ℚ) (shifts : List ℚ) : Prop :=
  ∃ (rand : List ℚ) (S : Finset ℕ),
    rand.length = N ∧
    (∀ r ∈ rand, 0 ≤ r ∧ r < 1) ∧
    S ⊆ Finset.range N ∧ S.card = num_no_shift N p ∧
    shifts = zeroOut (rand.map (fun r => r * 2 * max_shift - max_shift)) S

theorem zeroOut_length {α : Type} [Zero α] (drawn : List α) (S : Finset ℕ) :
    (zeroOut drawn S).length = drawn.length := by
  simp [zeroOut]

theorem zeroOut_getElem {α : Type} [Zero α] (drawn : List α) (S : Finset ℕ)
    (i : ℕ) (h : i < drawn.length) (h2 : i < (zeroOut drawn S).length) :
    (zeroOut drawn S)[i] = if i ∈ S then 0 else drawn[i] := by
  simp [zeroOut, List.getElem_zipWith]

theorem zeroOut_all_zero {α : Type} [Zero α] (drawn : List α) :
    zeroOut drawn (Finset.range drawn.length)
      = List.replicate drawn.length (0 : α) := by
  apply List.ext_getElem
  · simp [zeroOut_length]
  · intro i h1 h2
    have hi : i < drawn.length := by simpa [zeroOut_length] using h1
    rw [zeroOut_getElem drawn _ i hi h1]
    simp [Finset.mem_range, hi]

theorem zeroOut_of_all_zero {α : Type} [Zero α] (drawn : List α) (S : Finset ℕ)
    (h : ∀ v ∈ drawn, v = 0) :
    zeroOut drawn S = List.replicate drawn.length (0 : α) := by
  apply List.ext_getElem
  · simp [zeroOut_length]
  · intro i h1 h2
    have hi : i < drawn.length := by simpa [zeroOut_length] using h1
    rw [zeroOut_getElem drawn _ i hi h1]
    have := h drawn[i] (List.getElem_mem _)
    simp [this]

theorem zipWith_congr_mem {α β γ : Type} (f g : α → β → γ) :
    ∀ (l₁ : List α) (l₂ : List β),
    (∀ a ∈ l₁, ∀ b, f a b = g a b) →
    List.zipWith f l₁ l₂ = List.zipWith g l₁ l₂ := by
  intro l₁
  induction l₁ with
  | nil => intro l₂ _; rfl
  | cons a t ih =>
    intro l₂ h
    cases l₂ with
    | nil => rfl
    | cons b u =>
      simp only [List.zipWith_cons_cons]
      exact congr_arg₂ _ (h a (List.mem_cons_self a t) b)
        (ih u (fun x hx b => h x (List.mem_cons_of_mem a hx) b))

theorem map_zipWith_eq {α β γ δ : Type} (h : γ → δ) (f : α → β → γ) :
    ∀ (l₁ : List α) (l₂ : List β),
    (List.zipWith f l₁ l₂).map h = List.zipWith (fun a b => h (f a b)) l₁ l₂ := by
  intro l₁
  induction l₁ with
  | nil => intro l₂; rfl
  | cons a t ih =>
    intro l₂
    cases l₂ with
    | nil => rfl
    | cons b u => simp only [List.zipWith_cons_cons, List.map_cons, ih]

theorem mem_of_mem_zipWith {α β γ : Type} (f : α → β → γ) :
    ∀ (l₁ : List α) (l₂ : List β) (x : γ),
    x ∈ List.zipWith f l₁ l₂ → ∃ a ∈ l₁, ∃ b ∈ l₂, x = f a b := by
  intro l₁
  induction l₁ with
  | nil => intro l₂ x hx; simp at hx
  | cons a t ih =>
    intro l₂ x hx
    cases l₂ with
    | nil => simp at hx
    | cons b u =>
      simp only [List.zipWith_cons_cons, List.mem_cons] at hx
      rcases hx with rfl | hx
      · exact ⟨a, List.mem_cons_self a t, b, List.mem_cons_self b u, rfl⟩
      · rcases ih u x hx with ⟨a2, ha2, b2, hb2, rfl⟩
        exact ⟨a2, List.mem_cons_of_mem a ha2, b2, List.mem_cons_of_mem b hb2, rfl⟩

theorem zipWith_replicate_right {α β γ : Type} (f : α → β → γ) (c : β) :
    ∀ (l : List α), List.zipWith f l (List.replicate l.length c)
      = l.map (fun a => f a c) := by
  intro l
  induction l with
  | nil => rfl
  | cons a t ih =>
    simp only [List.length_cons, List.replicate_succ, List.zipWith_cons_cons,
      List.map_cons, ih]

theorem getElem?_zipWith_some {α β γ : Type} (f : α → β → γ) :
    ∀ (l₁ : List α) (l₂ : List β) (i : ℕ) (a : α) (b : β),
    l₁[i]? = some a → l₂[i]? = some b →
    (List.zipWith f l₁ l₂)[i]? = some (f a b) := by
  intro l₁
  induction l₁ with
  | nil => intro l₂ i a b ha _; simp at ha
  | cons x t ih =>
    intro l₂ i a b ha hb
    cases l₂ with
    | nil => simp at hb
    | cons y u =>
      cases i with
      | zero =>
        simp only [List.getElem?_cons_zero, Option.some.injEq] at ha hb
        simp [List.zipWith_cons_cons, ha, hb]
      | succ j =>
        simp only [List.getElem?_cons_succ] at ha hb
        simpa [List.zipWith_cons_cons] using ih u j a b ha hb

theorem newClassFn_sentinel (C : ℕ) (s : ℤ) : newClassFn C (C - 1) s = C - 1 := by
  simp [newClassFn]

theorem newClassFn_lt_sentinel (C c : ℕ) (s : ℤ) (h12 : 12 ∣ (C - 1))
    (hc : c < C - 1) : newClassFn C c s < C - 1 := by
  have hne : c ≠ C - 1 := by omega
  rw [newClassFn, if_neg hne]
  rcases h12 with ⟨k, hk⟩
  have h0 : (0 : ℤ) ≤ (((c % 12 : ℕ) : ℤ) + s) % 12 := Int.emod_nonneg _ (by norm_num)
  have hlt : (((c % 12 : ℕ) : ℤ) + s) % 12 < 12 := Int.emod_lt_of_pos _ (by norm_num)
  omega

theorem newClassFn_lt (C c : ℕ) (s : ℤ) (hC : 1 ≤ C) (h12 : 12 ∣ (C - 1))
    (hc : c < C) : newClassFn C c s < C := by
  by_cases hsent : c = C - 1
  · rw [hsent, newClassFn_sentinel]; omega
  · have := newClassFn_lt_sentinel C c s h12 (by omega)
    omega

theorem newClassFn_zero (C c : ℕ) (_hc : c < C) : newClassFn C c 0 = c := by
  by_cases hsent : c = C - 1
  · rw [hsent, newClassFn_sentinel]
  · rw [newClassFn, if_neg hsent]
    have h0 : (0 : ℤ) ≤ ((c % 12 : ℕ) : ℤ) := by positivity
    have hlt : ((c % 12 : ℕ) : ℤ) < 12 := by
      have := Nat.mod_lt c (show 0 < 12 by norm_num)
      exact_mod_cast this
    have : (((c % 12 : ℕ) : ℤ) + 0) % 12 = ((c % 12 : ℕ) : ℤ) := by
      rw [add_zero]
      exact Int.emod_eq_of_lt h0 hlt
    rw [this]
    omega

theorem newClassFn_roundtrip (C c : ℕ) (s : ℤ) (hC : 1 ≤ C)
    (h12 : 12 ∣ (C - 1)) (hc : c < C) :
    newClassFn C (newClassFn C c s) (-s) = c := by
  by_cases hsent : c = C - 1
  · rw [hsent, newClassFn_sentinel, newClassFn_sentinel]
  · have hlt1 : newClassFn C c s < C - 1 :=
      newClassFn_lt_sentinel C c s h12 (by omega)
    have hne1 : newClassFn C c s ≠ C - 1 := by omega
    rw [newClassFn, if_neg hne1]
    rw [newClassFn, if_neg hsent]
    have h0 : (0 : ℤ) ≤ (((c % 12 : ℕ) : ℤ) + s) % 12 := Int.emod_nonneg _ (by norm_num)
    have hlt : (((c % 12 : ℕ) : ℤ) + s) % 12 < 12 := Int.emod_lt_of_pos _ (by norm_num)
    set r : ℤ := (((c % 12 : ℕ) : ℤ) + s) % 12 with hr
    have hmod : (r.toNat + c / 12 * 12) % 12 = r.toNat := by omega
    have hdiv : (r.toNat + c / 12 * 12) / 12 = c / 12 := by omega
    rw [hmod, hdiv]
    have hcast : ((r.toNat : ℕ) : ℤ) = r := Int.toNat_of_nonneg h0
    rw [hcast]
    have hfinal : (r + -s) % 12 = ((c % 12 : ℕ) : ℤ) := by
      rw [hr]
      have hcm0 : (0 : ℤ) ≤ ((c % 12 : ℕ) : ℤ) := by positivity
      have hcmlt : ((c % 12 : ℕ) : ℤ) < 12 := by
        have := Nat.mod_lt c (show 0 < 12 by norm_num)
        exact_mod_cast this
      omega
    rw [hfinal]
    have : (((c % 12 : ℕ) : ℤ)).toNat = c % 12 := by omega
    rw [this]
    omega

theorem num_no_shift_zero (N : ℕ) : num_no_shift N 0 = N := by
  simp [num_no_shift]

theorem num_no_shift_one (N : ℕ) : num_no_shift N 1 = 0 := by
  simp [num_no_shift]

theorem admissibleZ_p_zero (N : ℕ) (m : ℕ) (shifts : List ℤ)
    (h : AdmissibleShiftsZ N 0 m shifts) : shifts = List.replicate N 0 := by
  obtain ⟨drawn, S, hdl, _, hsub, hcard, heq⟩ := h
  have hfull : S = Finset.range N := by
    apply Finset.eq_of_subset_of_card_le hsub
    rw [hcard, num_no_shift_zero, Finset.card_range]
  rw [heq, hfull, ← hdl, zeroOut_all_zero, hdl]

theorem admissibleZ_maxshift_zero (N : ℕ) (p : ℚ) (shifts : List ℤ)
    (h : AdmissibleShiftsZ N p 0 shifts) : shifts = List.replicate N 0 := by
  obtain ⟨drawn, S, hdl, hvals, _, _, heq⟩ := h
  have hz : ∀ v ∈ drawn, v = 0 := by
    intro v hv
    have := hvals v hv
    simp at this
    omega
  rw [heq, zeroOut_of_all_zero drawn S hz, hdl]

theorem admissibleQ_p_zero (N : ℕ) (ms : ℚ) (shifts : List ℚ)
    (h : AdmissibleShiftsQ N 0 ms shifts) : shifts = List.replicate N 0 := by
  obtain ⟨rand, S, hdl, _, hsub, hcard, heq⟩ := h
  have hfull : S = Finset.range N := by
    apply Finset.eq_of_subset_of_card_le hsub
    rw [hcard, num_no_shift_zero, Finset.card_range]
  have hlen : (rand.map (fun r => r * 2 * ms - ms)).length = N := by
    simpa using hdl
  rw [heq, hfull, ← hlen, zeroOut_all_zero, hlen]

theorem admissibleQ_maxshift_zero (N : ℕ) (p : ℚ) (shifts : List ℚ)
    (h : AdmissibleShiftsQ N p 0 shifts) : shifts = List.replicate N 0 := by
  obtain ⟨rand, S, hdl, _, _, _, heq⟩ := h
  have hz : ∀ v ∈ rand.map (fun r => r * 2 * (0 : ℚ) - 0), v = 0 := by
    intro v hv
    rcases List.mem_map.mp hv with ⟨r, _, rfl⟩
    ring
  have hlen : (rand.map (fun r => r * 2 * (0 : ℚ) - 0)).length = N := by
    simpa using hdl
  rw [heq, zeroOut_of_all_zero _ S hz, hlen]

theorem semitone_shift_data_zero (bps : ℤ) :
    ∀ (data : List (List (List ℚ))),
    semitone_shift_data bps (List.replicate data.length 0) data = data := by
  intro data
  induction data with
  | nil => rfl
  | cons x t ih =>
    simp only [List.length_cons, List.replicate_succ, semitone_shift_data,
      List.zipWith_cons_cons]
    rw [zero_mul]
    congr 1
    rw [show x.map (np_roll (0 : ℤ)) = x.map id from
      List.map_congr_left (fun r _ => np_roll_zero r), List.map_id]

theorem adapt_chords_zero (C : ℕ) (hC : 1 ≤ C) (classes : List ℕ)
    (hcls : ∀ c ∈ classes, c < C) :
    adapt_targets_chords_maj_min (classes.map (fun c => oneHotRow c C))
      (List.replicate classes.length 0)
      = classes.map (fun c => oneHotRow c C) := by
  rw [adapt_chords_spec C hC classes _ hcls]
  rw [zipWith_replicate_right]
  unfold one_hot
  rw [List.map_map]
  apply List.map_congr_left
  intro c hc
  simp [Function.comp_def, newClassFn_zero C c (hcls c hc)]

/-- C1: for every batch of one-hot chord-class targets of width `C` and every
integer shift vector, the chord remapper maps each non-sentinel class `c` with
shift `s` to the one-hot class `(c div 12) * 12 + ((c mod 12 + s) mod 12)`,
with a non-negative modulo even for negative `s`; that class index is a valid
class (`< C`); and in particular a one-hot at index 7 with `C = 25` and shift
`+5` maps to a one-hot at index 0. -/
theorem C1_chord_remap_formula :
    ∀ (C : ℕ) (classes : List ℕ) (shifts : List ℤ),
    1 ≤ C → 12 ∣ (C - 1) → (∀ c ∈ classes, c < C - 1) →
    (adapt_targets_chords_maj_min (classes.map (fun c => oneHotRow c C)) shifts
      = List.zipWith
          (fun c s =>
            oneHotRow ((c / 12) * 12 + ((((c % 12 : ℕ) : ℤ) + s) % 12).toNat) C)
          classes shifts)
    ∧ (∀ c ∈ classes, ∀ s : ℤ,
        (c / 12) * 12 + ((((c % 12 : ℕ) : ℤ) + s) % 12).toNat < C)
    ∧ adapt_targets_chords_maj_min [oneHotRow 7 25] [5] = [oneHotRow 0 25] := by
  intro C classes shifts hC h12 hcls
  have hformula : ∀ c ∈ classes, ∀ s : ℤ,
      newClassFn C c s
        = (c / 12) * 12 + ((((c % 12 : ℕ) : ℤ) + s) % 12).toNat := by
    intro c hc s
    rw [newClassFn, if_neg (by have := hcls c hc; omega)]
    ring
  refine ⟨?_, ?_, ?_⟩
  · rw [adapt_chords_spec C hC classes shifts
      (fun c hc => lt_of_lt_of_le (hcls c hc) (by omega))]
    unfold one_hot
    rw [map_zipWith_eq]
    apply zipWith_congr_mem
    intro c hc s
    rw [hformula c hc s]
  · intro c hc s
    rw [← hformula c hc s]
    exact newClassFn_lt C c s hC h12
      (lt_of_lt_of_le (hcls c hc) (by omega))
  · decide

/-- Witness for C1 at `C = 25`, one sample of class 7, shift `+5`. -/
theorem C1_witness :
    ((1 ≤ 25) ∧ (12 ∣ (25 - 1)) ∧ (∀ c ∈ [7], c < 25 - 1))
    ∧ (adapt_targets_chords_maj_min ([7].map (fun c => oneHotRow c 25)) [5]
        = List.zipWith
            (fun c s =>
              oneHotRow ((c / 12) * 12 + ((((c % 12 : ℕ) : ℤ) + s) % 12).toNat) 25)
            [7] [5])
      ∧ (∀ c ∈ [7], ∀ s : ℤ,
          (c / 12) * 12 + ((((c % 12 : ℕ) : ℤ) + s) % 12).toNat < 25)
      ∧ adapt_targets_chords_maj_min [oneHotRow 7 25] [5] = [oneHotRow 0 25] :=
  ⟨⟨by decide, by decide, by decide⟩,
    C1_chord_remap_formula 25 [7] [5] (by decide) (by decide) (by decide)⟩

/-- C2: a sample whose class is the sentinel `C - 1` is mapped back to the
sentinel by the chord remapper for any shift; in particular a sentinel target
at index 24 with `C = 25` stays at index 24 under any shift. -/
theorem C2_sentinel_invariant :
    (∀ (C : ℕ) (classes : List ℕ) (shifts : List ℤ) (i : ℕ),
      1 ≤ C → (∀ c ∈ classes, c < C) →
      classes[i]? = some (C - 1) → i < shifts.length →
      (adapt_targets_chords_maj_min (classes.map (fun c => oneHotRow c C)) shifts)[i]?
        = some (oneHotRow (C - 1) C))
    ∧ (∀ s : ℤ,
        adapt_targets_chords_maj_min [oneHotRow 24 25] [s] = [oneHotRow 24 25]) := by
  constructor
  · intro C classes shifts i hC hcls hcl hi
    rw [adapt_chords_spec C hC classes shifts hcls]
    unfold one_hot
    rw [map_zipWith_eq]
    have hs : ∃ s, shifts[i]? = some s := by
      rcases List.getElem?_eq_some_iff.mpr ⟨hi, rfl⟩ with h
      exact ⟨shifts[i], h⟩
    rcases hs with ⟨s, hsome⟩
    rw [getElem?_zipWith_some _ classes shifts i (C - 1) s hcl hsome]
    rw [newClassFn_sentinel]
  · intro s
    have h : adapt_targets_chords_maj_min ([24].map (fun c => oneHotRow c 25)) [s]
        = one_hot (List.zipWith (fun c s => newClassFn 25 c s) [24] [s]) 25 :=
      adapt_chords_spec 25 (by norm_num) [24] [s] (by simp)
    simp only [List.map_cons, List.map_nil] at h
    rw [h]
    simp only [List.zipWith_cons_cons, List.zipWith_nil_right]
    rw [show newClassFn 25 24 s = 24 from newClassFn_sentinel 25 s]
    rfl

/-- Witness for C2 at `C = 25`, sentinel sample at position 0, shift 3. -/
theorem C2_witness :
    ((1 ≤ 25) ∧ (∀ c ∈ [24, 7], c < 25)
      ∧ ([24, 7][0]? = some (25 - 1)) ∧ (0 < [(3 : ℤ), 0].length))
    ∧ (adapt_targets_chords_maj_min
        ([24, 7].map (fun c => oneHotRow c 25)) [3, 0])[0]?
        = some (oneHotRow (25 - 1) 25) :=
  ⟨⟨by decide, by decide, by decide, by decide⟩,
    C2_sentinel_invariant.1 25 [24, 7] [3, 0] 0 (by decide) (by decide)
      (by decide) (by decide)⟩

theorem zipWith_roundtrip (C : ℕ) (hC : 1 ≤ C) (h12 : 12 ∣ (C - 1)) :
    ∀ (classes : List ℕ) (shifts : List ℤ),
    (∀ c ∈ classes, c < C) → shifts.length = classes.length →
    List.zipWith (fun c s => newClassFn C c s)
      (List.zipWith (fun c s => newClassFn C c s) classes shifts)
      (shifts.map Neg.neg)
    = classes := by
  intro classes
  induction classes with
  | nil => intro shifts _ hlen; simp at hlen; simp [hlen]
  | cons c t ih =>
    intro shifts hcls hlen
    cases shifts with
    | nil => simp at hlen
    | cons s u =>
      simp only [List.zipWith_cons_cons, List.map_cons]
      rw [newClassFn_roundtrip C c s hC h12 (hcls c (List.mem_cons_self c t))]
      rw [ih u (fun x hx => hcls x (List.mem_cons_of_mem c hx)) (by simpa using hlen)]

/-- C6: applying the chord remapper with shifts `s` and then with `-s` returns
the original one-hot batch: every non-sentinel class round-trips and the
sentinel is unchanged by both applications. -/
theorem C6_roundtrip :
    ∀ (C : ℕ) (classes : List ℕ) (shifts : List ℤ),
    1 ≤ C → 12 ∣ (C - 1) → (∀ c ∈ classes, c < C) →
    shifts.length = classes.length →
    adapt_targets_chords_maj_min
      (adapt_targets_chords_maj_min (classes.map (fun c => oneHotRow c C)) shifts)
      (shifts.map Neg.neg)
    = classes.map (fun c => oneHotRow c C) := by
  intro C classes shifts hC h12 hcls hlen
  rw [adapt_chords_spec C hC classes shifts hcls]
  unfold one_hot
  rw [adapt_chords_spec C hC (List.zipWith (fun c s => newClassFn C c s) classes shifts)
    (shifts.map Neg.neg)
    (by
      intro k hk
      rcases mem_of_mem_zipWith _ classes shifts k hk with ⟨a, ha, b, _, rfl⟩
      exact newClassFn_lt C a b hC h12 (hcls a ha))]
  rw [zipWith_roundtrip C hC h12 classes shifts hcls hlen]
  rfl

/-- Witness for C6 at `C = 25`, classes `[7, 24, 13]`, shifts `[5, -3, -20]`. -/
theorem C6_witness :
    ((1 ≤ 25) ∧ (12 ∣ (25 - 1)) ∧ (∀ c ∈ [7, 24, 13], c < 25)
      ∧ ([(5 : ℤ), -3, -20].length = [7, 24, 13].length))
    ∧ adapt_targets_chords_maj_min
        (adapt_targets_chords_maj_min
          ([7, 24, 13].map (fun c => oneHotRow c 25)) [5, -3, -20])
        ([(5 : ℤ), -3, -20].map Neg.neg)
      = [7, 24, 13].map (fun c => oneHotRow c 25) :=
  ⟨⟨by decide, by decide, by decide, by decide⟩,
    C6_roundtrip 25 [7, 24, 13] [5, -3, -20] (by decide) (by decide)
      (by decide) (by decide)⟩

/-- C7: chroma remapping acts like `Z/12`: rolling each 12-dimensional row by
`s₁` and then `s₂` equals rolling once by `(s₁ + s₂) mod 12`; and the chroma
vector with a 1 at index 0 rolled by 3 has its 1 at index 3. -/
theorem C7_chroma_group_action :
    (∀ (T : List (List ℚ)) (s₁ s₂ : List ℤ),
      (∀ r ∈ T, r.length = 12) →
      adapt_targets_chroma (adapt_targets_chroma T s₁) s₂
        = adapt_targets_chroma T (List.zipWith (fun a b => (a + b) % 12) s₁ s₂))
    ∧ adapt_targets_chroma [[1, 0, 0, 0, 0, 0, 0, 0, 0, 0, 0, 0]] [3]
        = [[0, 0, 0, 1, 0, 0, 0, 0, 0, 0, 0, 0]] := by
  constructor
  · intro T
    induction T with
    | nil => intro s₁ s₂ _; simp [adapt_targets_chroma]
    | cons t u ih =>
      intro s₁ s₂ hr
      cases s₁ with
      | nil => simp [adapt_targets_chroma]
      | cons a v =>
        cases s₂ with
        | nil => simp [adapt_targets_chroma]
        | cons b w =>
          simp only [adapt_targets_chroma, List.zipWith_cons_cons]
          have ht12 : t.length = 12 := hr t (List.mem_cons_self t u)
          congr 1
          · rw [np_roll_np_roll]
            have h2 : np_roll ((a + b) % 12) t
                = np_roll ((a + b) % (t.length : ℤ)) t := by
              rw [ht12]; norm_num
            rw [h2, np_roll_emod]
          · exact ih v w (fun r hrr => hr r (List.mem_cons_of_mem t hrr))
  · decide

/-- Witness for C7: one chroma row, shifts 3 then 4 equal one shift of
`(3 + 4) mod 12 = 7`. -/
theorem C7_witness :
    (∀ r ∈ [[(1 : ℚ), 0, 0, 0, 0, 0, 0, 0, 0, 0, 0, 0]], r.length = 12)
    ∧ adapt_targets_chroma
        (adapt_targets_chroma [[(1 : ℚ), 0, 0, 0, 0, 0, 0, 0, 0, 0, 0, 0]] [3]) [4]
      = adapt_targets_chroma [[(1 : ℚ), 0, 0, 0, 0, 0, 0, 0, 0, 0, 0, 0]]
          (List.zipWith (fun a b => (a + b) % 12) [3] [4]) :=
  ⟨by decide,
    C7_chroma_group_action.1 [[(1 : ℚ), 0, 0, 0, 0, 0, 0, 0, 0, 0, 0, 0]]
      [3] [4] (by decide)⟩

/-- C10: the chord remapper only looks at each row through its argmax and at
the batch width: two batches of equal shape with the same row-wise argmaxes
give identical outputs, and (for a chord-class width, `12 ∣ C - 1`) every
output row is an exact one-hot row even when the input rows are not. -/
theorem C10_argmax_determines_output :
    (∀ (T₁ T₂ : List (List ℚ)) (shifts : List ℤ) (C : ℕ),
      (∀ r ∈ T₁, r.length = C) → (∀ r ∈ T₂, r.length = C) →
      T₁.length = T₂.length → T₁.map argmax = T₂.map argmax →
      adapt_targets_chords_maj_min T₁ shifts
        = adapt_targets_chords_maj_min T₂ shifts)
    ∧ (∀ (T : List (List ℚ)) (shifts : List ℤ) (C : ℕ),
      1 ≤ C → 12 ∣ (C - 1) → (∀ r ∈ T, r.length = C) →
      ∀ row ∈ adapt_targets_chords_maj_min T shifts,
        ∃ k, k < C ∧ row = oneHotRow k C) := by
  constructor
  · intro T₁ T₂ shifts C h₁ h₂ hlen hargmax
    have hdim : lastDim T₁ = lastDim T₂ := by
      cases T₁ with
      | nil =>
        cases T₂ with
        | nil => rfl
        | cons b u => simp at hlen
      | cons a t =>
        cases T₂ with
        | nil => simp at hlen
        | cons b u =>
          have ha : a.length = C := h₁ a (List.mem_cons_self a t)
          have hb : b.length = C := h₂ b (List.mem_cons_self b u)
          simp [lastDim, ha, hb]
    rw [adapt_chords_eq T₁ shifts, adapt_chords_eq T₂ shifts, hargmax, hdim]
  · intro T shifts C hC h12 hrect row hrow
    rw [adapt_chords_eq T shifts] at hrow
    unfold one_hot at hrow
    rcases List.mem_map.mp hrow with ⟨k, hk, rfl⟩
    rcases mem_of_mem_zipWith _ _ _ k hk with ⟨c, hc, s, _, rfl⟩
    rcases List.mem_map.mp hc with ⟨r, hr, rfl⟩
    have hrlen : r.length = C := hrect r hr
    have hrne : r ≠ [] := by
      intro hnil
      rw [hnil] at hrlen
      simp at hrlen
      omega
    have hargmax : argmax r < C := by
      have := argmax_lt_length r hrne
      omega
    have hTne : T ≠ [] := by
      intro hnil
      rw [hnil] at hr
      simp at hr
    have hdim : lastDim T = C := by
      cases T with
      | nil => exact absurd rfl hTne
      | cons a t =>
        have := hrect a (List.mem_cons_self a t)
        simp [lastDim, this]
    rw [hdim]
    have hW : C - 1 + 1 = C := by omega
    rw [hW]
    exact ⟨newClassFn C (argmax r) s,
      newClassFn_lt C (argmax r) s hC h12 hargmax, rfl⟩

/-- Witness for C10: two non-one-hot batches with equal argmaxes map to the
same output, and an output row of a non-one-hot input is exactly one-hot
(`C = 13`). -/
theorem C10_witness :
    ((∀ r ∈ [[(0 : ℚ), 2], [3, 1]], r.length = 2)
      ∧ (∀ r ∈ [[(1 : ℚ), 7], [9, 0]], r.length = 2)
      ∧ ([[(0 : ℚ), 2], [3, 1]] : List (List ℚ)).length = [[(1 : ℚ), 7], [9, 0]].length
      ∧ ([[(0 : ℚ), 2], [3, 1]] : List (List ℚ)).map argmax
          = [[(1 : ℚ), 7], [9, 0]].map argmax)
    ∧ (adapt_targets_chords_maj_min [[(0 : ℚ), 2], [3, 1]] [1, 1]
        = adapt_targets_chords_maj_min [[(1 : ℚ), 7], [9, 0]] [1, 1])
    ∧ (∀ row ∈ adapt_targets_chords_maj_min
          [[(0 : ℚ), 0, 5, 0, 0, 0, 0, 0, 0, 0, 0, 0, 1]] [4],
        ∃ k, k < 13 ∧ row = oneHotRow k 13) :=
  ⟨⟨by decide, by decide, by decide, by decide⟩,
    C10_argmax_determines_output.1 [[(0 : ℚ), 2], [3, 1]] [[(1 : ℚ), 7], [9, 0]]
      [1, 1] 2 (by decide) (by decide) (by decide) (by decide),
    C10_argmax_determines_output.2 [[(0 : ℚ), 0, 5, 0, 0, 0, 0, 0, 0, 0, 0, 0, 1]]
      [4] 13 (by decide) (by decide) (by decide)⟩

theorem np_roll_getElem (k : ℤ) (r : List ℚ) (j : ℕ) (hj : j < r.length) :
    (np_roll k r)[j]? = r[(((j : ℤ) - k) % (r.length : ℤ)).toNat]? := by
  have hlen : 0 < r.length := Nat.lt_of_le_of_lt (Nat.zero_le j) hj
  have hlenz : (0 : ℤ) < (r.length : ℤ) := by exact_mod_cast hlen
  have hne0 : (r.length : ℤ) ≠ 0 := ne_of_gt hlenz
  have ht : ((((-k) % (r.length : ℤ)).toNat : ℕ) : ℤ) = (-k) % (r.length : ℤ) :=
    Int.toNat_of_nonneg (Int.emod_nonneg _ hne0)
  have hjrot : j < (r.rotate (((-k) % (r.length : ℤ)).toNat)).length := by
    rw [List.length_rotate]; exact hj
  have hX0 : (0 : ℤ) ≤ ((j : ℤ) - k) % (r.length : ℤ) := Int.emod_nonneg _ hne0
  have hXlt : ((j : ℤ) - k) % (r.length : ℤ) < (r.length : ℤ) :=
    Int.emod_lt_of_pos _ hlenz
  have hXn : (((j : ℤ) - k) % (r.length : ℤ)).toNat < r.length := by omega
  have hget := List.get_rotate r (((-k) % (r.length : ℤ)).toNat) ⟨j, hjrot⟩
  have hidx : (j + ((-k) % (r.length : ℤ)).toNat) % r.length
      = (((j : ℤ) - k) % (r.length : ℤ)).toNat := by
    have hcast : (((j + ((-k) % (r.length : ℤ)).toNat) % r.length : ℕ) : ℤ)
        = ((j : ℤ) - k) % (r.length : ℤ) := by
      push_cast [ht]
      rw [Int.add_emod, Int.emod_emod_of_dvd _ dvd_rfl, ← Int.add_emod]
      congr 1
    omega
  show (r.rotate (((-k) % (r.length : ℤ)).toNat))[j]? = _
  rw [List.getElem?_eq_getElem hjrot, List.getElem?_eq_getElem hXn]
  congr 1
  have h1 : (r.rotate (((-k) % (r.length : ℤ)).toNat))[j]
      = (r.rotate (((-k) % (r.length : ℤ)).toNat)).get ⟨j, hjrot⟩ := rfl
  rw [h1, hget]
  simp only [List.get_eq_getElem, hidx]

/-- C5 counterexample: on a 2 × 1 sample (two frequency bins, one time frame,
in the spec data layout) with shift 1 and one bin per semitone, the code
(`np.roll(..., axis=-1)`) leaves the sample unchanged, while a circular shift
along the FIRST axis, as the claim states, would swap the two bins. -/
theorem C5_counterexample :
    semitone_shift_data 1 [1] [[[(1 : ℚ)], [2]]] = [[[(1 : ℚ)], [2]]]
    ∧ spec_shift_data_first_axis 1 [1] [[[(1 : ℚ)], [2]]] = [[[(2 : ℚ)], [1]]]
    ∧ ([[[(1 : ℚ)], [2]]] : List (List (List ℚ))) ≠ [[[(2 : ℚ)], [1]]] := by
  refine ⟨by decide, by decide, by decide⟩

/-- C5 amended: `SemitoneShift` produces an output sample of identical shape
obtained by a circular shift of `s * bins_per_semitone` positions along the
LAST axis of each 2-D sample (each row is rolled); wrapped values reappear at
the opposite edge (index formula modulo the row length) and no values are
lost (each rolled row is a permutation of the original). -/
theorem C5_amended_last_axis :
    ∀ (bps : ℤ) (shifts : List ℤ) (data : List (List (List ℚ))),
    shifts.length = data.length →
    ((semitone_shift_data bps shifts data).length = data.length
    ∧ (∀ (i : ℕ) (x : List (List ℚ)) (s : ℤ),
        data[i]? = some x → shifts[i]? = some s →
        (semitone_shift_data bps shifts data)[i]?
          = some (x.map (fun row => np_roll (s * bps) row)))
    ∧ (∀ (m : ℤ) (row : List ℚ),
        (np_roll m row).length = row.length
        ∧ (np_roll m row).Perm row
        ∧ ∀ (j : ℕ), j < row.length →
            (np_roll m row)[j]? = row[(((j : ℤ) - m) % (row.length : ℤ)).toNat]?)) := by
  intro bps shifts data hlen
  refine ⟨?_, ?_, ?_⟩
  · simp [semitone_shift_data, List.length_zipWith, hlen]
  · intro i x s hx hs
    exact getElem?_zipWith_some _ data shifts i x s hx hs
  · intro m row
    exact ⟨np_roll_length m row, np_roll_perm m row,
      fun j hj => np_roll_getElem m row j hj⟩

/-- Witness for the amended C5 on a 2 × 2 sample with shift 1 and
`bins_per_semitone = 2`. -/
theorem C5_witness :
    ([(1 : ℤ)].length = ([[[(1 : ℚ), 2], [3, 4]]] : List (List (List ℚ))).length)
    ∧ (semitone_shift_data 2 [1] [[[(1 : ℚ), 2], [3, 4]]]).length = 1
    ∧ (semitone_shift_data 2 [1] [[[(1 : ℚ), 2], [3, 4]]])[0]?
        = some ([[(1 : ℚ), 2], [3, 4]].map (fun row => np_roll ((1 : ℤ) * 2) row)) :=
  ⟨by decide,
    (C5_amended_last_axis 2 [1] [[[(1 : ℚ), 2], [3, 4]]] (by decide)).1,
    (C5_amended_last_axis 2 [1] [[[(1 : ℚ), 2], [3, 4]]] (by decide)).2.1
      0 [[(1 : ℚ), 2], [3, 4]] 1 (by decide) (by decide)⟩

theorem num_no_shift_10_3 : num_no_shift 10 (3/10) = 7 := by
  have h : Int.floor (((10 : ℕ) : ℚ) * (1 - 3/10)) = 7 := by norm_num
  rw [num_no_shift, h]
  rfl

/-- C4 counterexample: with `N = 3`, `p = 1/2`, the code computes
`int(3 * 0.5) = 1` forced-zero index but `round(3 * 0.5) = 2`; concretely,
zeroing the one sampled index of `[5, 5, 5]` leaves two shifted samples. -/
theorem C4_counterexample :
    num_no_shift 3 (1/2) = 1
    ∧ round ((3 : ℚ) * (1 - 1/2)) = 2
    ∧ zeroOut ([5, 5, 5] : List ℤ) {0} = [0, 5, 5]
    ∧ (1 : ℕ) ≠ 2 := by
  refine ⟨by norm_num [num_no_shift, Int.toNat_ofNat], ?_, by decide, by decide⟩
  norm_num [round_eq]

/-- The zeroing step shared by both samplers, over any drawn vector with a
zero element: the sampled index set has exactly `int(N * (1 - p))` elements
(at most `N`), the shifts at those indices are forced to 0, and every other
index keeps its drawn value. -/
theorem zeroOut_spec {α : Type} [Zero α] :
    ∀ (N : ℕ) (p : ℚ) (drawn : List α) (S : Finset ℕ) (shifts : List α),
    0 ≤ p → p ≤ 1 → drawn.length = N → S ⊆ Finset.range N →
    S.card = num_no_shift N p → shifts = zeroOut drawn S →
    (shifts.length = N
    ∧ num_no_shift N p ≤ N
    ∧ (∀ i ∈ S, shifts[i]? = some 0)
    ∧ (∀ i : ℕ, i < N → i ∉ S → shifts[i]? = drawn[i]?)) := by
  intro N p drawn S shifts hp0 hp1 hdl hsub _hcard hshifts
  have hlen : shifts.length = N := by rw [hshifts, zeroOut_length, hdl]
  refine ⟨hlen, ?_, ?_, ?_⟩
  · have hle : (N : ℚ) * (1 - p) ≤ (N : ℚ) := by
      have h1 : (1 : ℚ) - p ≤ 1 := by linarith
      have hN : (0 : ℚ) ≤ (N : ℚ) := by positivity
      nlinarith
    have hfloor : Int.floor ((N : ℚ) * (1 - p)) ≤ (N : ℤ) := by
      calc Int.floor ((N : ℚ) * (1 - p)) ≤ Int.floor ((N : ℚ)) :=
            Int.floor_le_floor hle
        _ = (N : ℤ) := Int.floor_natCast N
    rw [num_no_shift]
    omega
  · intro i hi
    have hiN : i < N := Finset.mem_range.mp (hsub hi)
    have hid : i < drawn.length := by omega
    have hz : i < (zeroOut drawn S).length := by rw [zeroOut_length]; exact hid
    rw [hshifts, List.getElem?_eq_getElem hz]
    rw [zeroOut_getElem drawn S i hid hz]
    simp [hi]
  · intro i hiN hnot
    have hid : i < drawn.length := by omega
    have hz : i < (zeroOut drawn S).length := by rw [zeroOut_length]; exact hid
    rw [hshifts, List.getElem?_eq_getElem hz]
    rw [zeroOut_getElem drawn S i hid hz]
    simp [hnot, List.getElem?_eq_getElem hid]

/-- C4 amended: EACH augmenter forces the shift of exactly
`int(N * (1 - p))` (truncation, as Python `int()`, not `round`) distinct
sample indices, chosen without replacement, to exactly 0, while the remaining
indices keep their drawn value — first conjunct: `SemitoneShift`'s integer
sampler; second conjunct: `Detuning`'s rational sampler
`rand * 2 * max_shift - max_shift`; for `N = 10`, `p = 0.3` the count is
still 7. -/
theorem C4_zeroed_count :
    (∀ (N : ℕ) (p : ℚ) (drawn : List ℤ) (S : Finset ℕ) (shifts : List ℤ),
      0 ≤ p → p ≤ 1 → drawn.length = N → S ⊆ Finset.range N →
      S.card = num_no_shift N p → shifts = zeroOut drawn S →
      (shifts.length = N
      ∧ num_no_shift N p ≤ N
      ∧ (∀ i ∈ S, shifts[i]? = some 0)
      ∧ (∀ i : ℕ, i < N → i ∉ S → shifts[i]? = drawn[i]?)))
    ∧ (∀ (N : ℕ) (p max_shift : ℚ) (rand : List ℚ) (S : Finset ℕ)
        (shifts : List ℚ),
      0 ≤ p → p ≤ 1 → rand.length = N → S ⊆ Finset.range N →
      S.card = num_no_shift N p →
      shifts = zeroOut (rand.map (fun r => r * 2 * max_shift - max_shift)) S →
      (shifts.length = N
      ∧ num_no_shift N p ≤ N
      ∧ (∀ i ∈ S, shifts[i]? = some 0)
      ∧ (∀ i : ℕ, i < N → i ∉ S →
          shifts[i]? = (rand.map (fun r => r * 2 * max_shift - max_shift))[i]?)))
    ∧ num_no_shift 10 (3/10) = 7 := by
  refine ⟨?_, ?_, num_no_shift_10_3⟩
  · intro N p drawn S shifts hp0 hp1 hdl hsub hcard hshifts
    exact zeroOut_spec N p drawn S shifts hp0 hp1 hdl hsub hcard hshifts
  · intro N p max_shift rand S shifts hp0 hp1 hdl hsub hcard hshifts
    exact zeroOut_spec N p (rand.map (fun r => r * 2 * max_shift - max_shift))
      S shifts hp0 hp1 (by simpa using hdl) hsub hcard hshifts

/-- Witness for the amended C4 at `N = 3`, `p = 1/2`, sampled index set
`{2}`: integer drawn shifts `[5, 6, 7]` for `SemitoneShift`, and for
`Detuning` the rational draws `[1/2, 0, 3/4]` with `max_shift = 2/5`. -/
theorem C4_witness :
    ((0 : ℚ) ≤ 1/2 ∧ (1/2 : ℚ) ≤ 1
      ∧ ({2} : Finset ℕ) ⊆ Finset.range 3
      ∧ ({2} : Finset ℕ).card = num_no_shift 3 (1/2))
    ∧ ((zeroOut ([5, 6, 7] : List ℤ) {2}).length = 3
    ∧ num_no_shift 3 (1/2) ≤ 3
    ∧ (∀ i ∈ ({2} : Finset ℕ), (zeroOut ([5, 6, 7] : List ℤ) {2})[i]? = some 0)
    ∧ (∀ i : ℕ, i < 3 → i ∉ ({2} : Finset ℕ) →
        (zeroOut ([5, 6, 7] : List ℤ) {2})[i]? = ([5, 6, 7] : List ℤ)[i]?))
    ∧ ((zeroOut (([(1 : ℚ)/2, 0, 3/4]).map (fun r => r * 2 * (2/5) - 2/5)) {2}).length = 3
    ∧ num_no_shift 3 (1/2) ≤ 3
    ∧ (∀ i ∈ ({2} : Finset ℕ),
        (zeroOut (([(1 : ℚ)/2, 0, 3/4]).map (fun r => r * 2 * (2/5) - 2/5)) {2})[i]?
          = some 0)
    ∧ (∀ i : ℕ, i < 3 → i ∉ ({2} : Finset ℕ) →
        (zeroOut (([(1 : ℚ)/2, 0, 3/4]).map (fun r => r * 2 * (2/5) - 2/5)) {2})[i]?
          = (([(1 : ℚ)/2, 0, 3/4]).map (fun r => r * 2 * (2/5) - 2/5))[i]?))
    ∧ num_no_shift 10 (3/10) = 7 :=
  ⟨⟨by norm_num, by norm_num, by decide,
      by norm_num [num_no_shift, Int.toNat_ofNat]⟩,
    C4_zeroed_count.1 3 (1/2) [5, 6, 7] {2} (zeroOut [5, 6, 7] {2})
      (by norm_num) (by norm_num) (by decide) (by decide)
      (by norm_num [num_no_shift, Int.toNat_ofNat]) rfl,
    C4_zeroed_count.2.1 3 (1/2) (2/5) [(1 : ℚ)/2, 0, 3/4] {2}
      (zeroOut (([(1 : ℚ)/2, 0, 3/4]).map (fun r => r * 2 * (2/5) - 2/5)) {2})
      (by norm_num) (by norm_num) (by decide) (by decide)
      (by norm_num [num_no_shift, Int.toNat_ofNat]) rfl,
    C4_zeroed_count.2.2⟩

/-- C3 counterexample: constructing a `SemitoneShift` with an unsupported
`target_type` does NOT fail: `__init__` has no `else` branch and no `raise`,
so it returns an object, and only a later batch step fails (the
`self.adapt_targets(...)` call raises `AttributeError`). -/
theorem C3_counterexample :
    (SemitoneShift.init 1 4 2 "bogus").isOk = true
    ∧ ((SemitoneShift.init 1 4 2 "bogus").toOption.map
        (fun a => a.processBatch [0] [[[1]]] [[1]]))
      = some (Except.error "AttributeError: adapt_targets") := by
  refine ⟨rfl, rfl⟩

/-- C3 amended: constructing a `SemitoneShift` with a `target_type` other
than `"chords_maj_min"` or `"chroma"` succeeds (returns an object with no
target adapter bound); the failure happens only when a batch is processed. -/
theorem C3_no_construction_failure :
    ∀ (p : ℚ) (m b : ℕ) (tt : String),
    tt ≠ "chords_maj_min" → tt ≠ "chroma" →
    ((SemitoneShift.init p m b tt).isOk = true
    ∧ ∀ a, SemitoneShift.init p m b tt = Except.ok a →
        ∀ (shifts : List ℤ) (data : List (List (List ℚ)))
          (targets : List (List ℚ)),
          a.processBatch shifts data targets
            = Except.error "AttributeError: adapt_targets") := by
  intro p m b tt h1 h2
  have hinit : SemitoneShift.init p m b tt
      = Except.ok { p := p, max_shift := m, bins_per_semitone := b,
                    adapt_targets := none } := by
    rw [SemitoneShift.init, if_neg h1, if_neg h2]
  constructor
  · rw [hinit]; rfl
  · intro a ha shifts data targets
    rw [hinit] at ha
    have : a = { p := p, max_shift := m, bins_per_semitone := b,
                 adapt_targets := none } := by
      cases ha; rfl
    rw [this, SemitoneShift.processBatch]

/-- Witness for the amended C3 at `target_type = "bogus"`. -/
theorem C3_witness :
    ("bogus" ≠ "chords_maj_min" ∧ "bogus" ≠ "chroma")
    ∧ ((SemitoneShift.init 1 4 2 "bogus").isOk = true
    ∧ ∀ a, SemitoneShift.init 1 4 2 "bogus" = Except.ok a →
        ∀ (shifts : List ℤ) (data : List (List (List ℚ)))
          (targets : List (List ℚ)),
          a.processBatch shifts data targets
            = Except.error "AttributeError: adapt_targets") :=
  ⟨⟨by decide, by decide⟩,
    C3_no_construction_failure 1 4 2 "bogus" (by decide) (by decide)⟩

/-- C8: `Detuning` construction fails with the invalid-configuration error
exactly when `max_shift ≥ 0.5`; `max_shift = 0.5` raises and
`max_shift = 0.49` succeeds. -/
theorem C8_detuning_validation :
    (∀ (p ms : ℚ) (bps : ℕ),
      (Detuning.init p ms bps).isOk = false ↔ 1/2 ≤ ms)
    ∧ (Detuning.init 1 (1/2) 2).isOk = false
    ∧ (Detuning.init 1 (49/100) 2).isOk = true := by
  refine ⟨?_, ?_, ?_⟩
  · intro p ms bps
    simp only [Detuning.init]
    by_cases h : ms ≥ 1/2
    · rw [if_pos h]
      exact iff_of_true rfl h
    · rw [if_neg h]
      exact iff_of_false
        (fun hcon => by simp [Except.isOk, Except.toBool] at hcon) h
  · simp only [Detuning.init]
    rw [if_pos (by norm_num)]
    rfl
  · simp only [Detuning.init]
    rw [if_neg (by norm_num)]
    rfl

/-- C9: with `p = 0` (any `max_shift`), and with `p = 1` and `max_shift = 0`,
one batch step of each augmenter is the identity on any batch whose chord
targets are genuine one-hot rows, for every shift vector the sampler can
produce under that configuration. -/
theorem C9_identity_transforms :
    (∀ (m bps : ℕ) (a : SemitoneShift),
      SemitoneShift.init 0 m bps "chords_maj_min" = Except.ok a →
      ∀ (C : ℕ) (classes : List ℕ) (data : List (List (List ℚ)))
        (shifts : List ℤ),
      1 ≤ C → (∀ c ∈ classes, c < C) → data.length = classes.length →
      AdmissibleShiftsZ data.length 0 m shifts →
      a.processBatch shifts data (classes.map (fun c => oneHotRow c C))
        = Except.ok (data, classes.map (fun c => oneHotRow c C)))
    ∧ (∀ (bps : ℕ) (a : SemitoneShift),
      SemitoneShift.init 1 0 bps "chords_maj_min" = Except.ok a →
      ∀ (C : ℕ) (classes : List ℕ) (data : List (List (List ℚ)))
        (shifts : List ℤ),
      1 ≤ C → (∀ c ∈ classes, c < C) → data.length = classes.length →
      AdmissibleShiftsZ data.length 1 0 shifts →
      a.processBatch shifts data (classes.map (fun c => oneHotRow c C))
        = Except.ok (data, classes.map (fun c => oneHotRow c C)))
    ∧ (∀ (ms : ℚ) (bps : ℕ) (d : Detuning),
      Detuning.init 0 ms bps = Except.ok d →
      ∀ (data : List (List (List ℚ))) (targets : List (List ℚ))
        (shifts : List ℚ),
      AdmissibleShiftsQ data.length 0 ms shifts →
      d.processBatch shifts data targets = (data, targets))
    ∧ (∀ (bps : ℕ) (d : Detuning),
      Detuning.init 1 0 bps = Except.ok d →
      ∀ (data : List (List (List ℚ))) (targets : List (List ℚ))
        (shifts : List ℚ),
      AdmissibleShiftsQ data.length 1 0 shifts →
      d.processBatch shifts data targets = (data, targets)) := by
  have hsem : ∀ (p : ℚ) (m bps : ℕ) (a : SemitoneShift),
      SemitoneShift.init p m bps "chords_maj_min" = Except.ok a →
      ∀ (C : ℕ) (classes : List ℕ) (data : List (List (List ℚ)))
        (shifts : List ℤ),
      1 ≤ C → (∀ c ∈ classes, c < C) → data.length = classes.length →
      shifts = List.replicate data.length 0 →
      a.processBatch shifts data (classes.map (fun c => oneHotRow c C))
        = Except.ok (data, classes.map (fun c => oneHotRow c C)) := by
    intro p m bps a hinit C classes data shifts hC hcls hdlen hzero
    have ha : a = { p := p, max_shift := m, bins_per_semitone := bps,
                    adapt_targets := some AdaptTargets.chords_maj_min } := by
      rw [SemitoneShift.init, if_pos rfl] at hinit
      cases hinit
      rfl
    subst ha hzero
    rw [SemitoneShift.processBatch]
    simp only [runAdapt]
    rw [semitone_shift_data_zero, hdlen,
      adapt_chords_zero C hC classes hcls]
  have hdet : ∀ (d : Detuning) (data : List (List (List ℚ)))
      (targets : List (List ℚ)) (shifts : List ℚ),
      shifts = List.replicate data.length 0 →
      d.processBatch shifts data targets = (data, targets) := by
    intro d data targets shifts hzero
    subst hzero
    rw [Detuning.processBatch]
    have hdata : List.zipWith
        (fun x s => ndimage_shift (s * ((d.bins_per_semitone : ℕ) : ℚ)) x)
        data (List.replicate data.length 0) = data := by
      rw [zipWith_replicate_right]
      have : ∀ x ∈ data,
          ndimage_shift ((0 : ℚ) * ((d.bins_per_semitone : ℕ) : ℚ)) x = id x := by
        intro x _
        rw [zero_mul, ndimage_shift, if_pos rfl]
        rfl
      rw [List.map_congr_left this, List.map_id]
    rw [hdata]
  refine ⟨?_, ?_, ?_, ?_⟩
  · intro m bps a hinit C classes data shifts hC hcls hdlen hadm
    exact hsem 0 m bps a hinit C classes data shifts hC hcls hdlen
      (admissibleZ_p_zero data.length m shifts hadm)
  · intro bps a hinit C classes data shifts hC hcls hdlen hadm
    exact hsem 1 0 bps a hinit C classes data shifts hC hcls hdlen
      (admissibleZ_maxshift_zero data.length 1 shifts hadm)
  · intro ms bps d _ data targets shifts hadm
    exact hdet d data targets shifts
      (admissibleQ_p_zero data.length ms shifts hadm)
  · intro bps d _ data targets shifts hadm
    exact hdet d data targets shifts
      (admissibleQ_maxshift_zero data.length 1 shifts hadm)

/-- Witness for C9: all four configurations applied to a one-sample batch. -/
theorem C9_witness :
    (SemitoneShift.processBatch
        { p := 0, max_shift := 4, bins_per_semitone := 2,
          adapt_targets := some AdaptTargets.chords_maj_min }
        [0] [[[1, 2]]] ([7].map (fun c => oneHotRow c 25))
      = Except.ok ([[[1, 2]]], [7].map (fun c => oneHotRow c 25)))
    ∧ (SemitoneShift.processBatch
        { p := 1, max_shift := 0, bins_per_semitone := 2,
          adapt_targets := some AdaptTargets.chords_maj_min }
        [0] [[[1, 2]]] ([7].map (fun c => oneHotRow c 25))
      = Except.ok ([[[1, 2]]], [7].map (fun c => oneHotRow c 25)))
    ∧ (Detuning.processBatch
        { p := 0, max_shift := 1/4, bins_per_semitone := 2 }
        [0] [[[1, 2]]] [[1, 0]]
      = ([[[1, 2]]], [[1, 0]]))
    ∧ (Detuning.processBatch
        { p := 1, max_shift := 0, bins_per_semitone := 2 }
        [0] [[[1, 2]]] [[1, 0]]
      = ([[[1, 2]]], [[1, 0]])) :=
  ⟨C9_identity_transforms.1 4 2 _ rfl 25 [7] [[[1, 2]]] [0]
      (by decide) (by decide) (by decide)
      ⟨[3], {0}, rfl, by decide, by decide, by simp [num_no_shift_zero],
        by decide⟩,
    C9_identity_transforms.2.1 2 _ rfl 25 [7] [[[1, 2]]] [0]
      (by decide) (by decide) (by decide)
      ⟨[0], ∅, rfl, by decide, by decide, by simp [num_no_shift_one],
        by decide⟩,
    C9_identity_transforms.2.2.1 (1/4) 2 _
      (by rw [Detuning.init, if_neg (by norm_num)])
      [[[1, 2]]] [[1, 0]] [0]
      ⟨[1/2], {0}, rfl, by norm_num, by decide, by simp [num_no_shift_zero],
        by norm_num [zeroOut]; decide⟩,
    C9_identity_transforms.2.2.2 2 _
      (by rw [Detuning.init, if_neg (by norm_num)])
      [[[1, 2]]] [[1, 0]] [0]
      ⟨[1/2], ∅, rfl, by norm_num, by decide, by simp [num_no_shift_one],
        by norm_num [zeroOut]; decide⟩⟩

end Chordrec
